import Mathlib

/-!
Verification of the PDF-to-Word conversion pipeline of `utllo`
(`src/lib/countdown.ts`, second module: `extractPageText`, `convertPdfToWord`)
and of the file validator (`src/lib/pdf-converter.ts`, `validatePdfFile`).

The TypeScript source is shallowly embedded: coordinates (JS numbers used
only through subtraction, absolute value and comparisons) become `ℤ`,
JS strings become `String`, JS arrays become `List`.  JS `Array.prototype.sort`
is stable (ECMAScript 2019), so it is modelled by a stable sort.
-/

namespace Utllo

/-- One entry of `textContent.items` (`PDFTextItem` in the source): the glyph
run's string, `transform[4]` (the x translation), `transform[5]` (the raw y
translation, before inversion) and the optional `hasEOL` flag. -/
structure PDFTextItem where
  str : String
  tx : ℤ
  ty : ℤ
  hasEOL : Bool
deriving DecidableEq

/-- An element of the `positioned` array built at the top of
`extractPageText`. -/
structure Positioned where
  text : String
  x : ℤ
  y : ℤ
  hasEOL : Bool
deriving DecidableEq

/-- An `{ x, text }` entry of a line's `items` array. -/
structure RunItem where
  x : ℤ
  text : String
deriving DecidableEq

/-- The `TextLine` interface of the source: a representative `y` and the
run items collected into the line. -/
structure TextLine where
  y : ℤ
  items : List RunItem
deriving DecidableEq, Inhabited

/-- JS `String.prototype.trim`, modelled on the character list (the inputs in
this development only use ASCII whitespace, where JS and Lean agree). -/
def jsTrim (s : String) : String :=
  ⟨((s.data.dropWhile Char.isWhitespace).reverse.dropWhile Char.isWhitespace).reverse⟩

/-- JS `String.prototype.length` (code-unit count; all inputs here are ASCII,
where this agrees with the codepoint count). -/
def jsLength (s : String) : Nat := s.data.length

/-- JS `array.join(" ")` for an array of strings. -/
def spaceJoin : List String → String
  | [] => ""
  | [t] => t
  | t :: rest => t ++ " " ++ spaceJoin rest

/-- The filter applied to `textContent.items`:
`item.str.trim().length > 0 || item.hasEOL`. -/
def keepItem (it : PDFTextItem) : Bool :=
  decide (0 < jsLength (jsTrim it.str)) || it.hasEOL

/-- The `positioned` array of `extractPageText`: filtered items, with
`y` inverted (`pageHeight - transform[5]`). -/
def positionedOf (pageHeight : ℤ) (items : List PDFTextItem) : List Positioned :=
  (items.filter keepItem).map fun it =>
    { text := it.str, x := it.tx, y := pageHeight - it.ty, hasEOL := it.hasEOL }

/-- `LINE_THRESHOLD` of the source. -/
def LINE_THRESHOLD : ℤ := 3

/-- The inner `for (const line of lines)` search of the clustering loop:
append the run to the first line whose representative `y` is within
`LINE_THRESHOLD`; if none matches, push a fresh line whose representative is
the run's `y`. -/
def addRun (lines : List TextLine) (p : Positioned) : List TextLine :=
  match lines with
  | [] => [{ y := p.y, items := [{ x := p.x, text := p.text }] }]
  | l :: rest =>
    if |l.y - p.y| < LINE_THRESHOLD then
      { y := l.y, items := l.items ++ [{ x := p.x, text := p.text }] } :: rest
    else
      l :: addRun rest p

/-- The outer clustering loop `for (const item of positioned)`. -/
def clusterLines (ps : List Positioned) : List TextLine :=
  ps.foldl addRun []

/-- Insert `a` into the sorted accumulator, after every element `b` with
`le b a` (so after all elements tied with `a`): the insertion step of a
stable insertion sort. -/
def insertSorted (le : α → α → Bool) (a : α) : List α → List α
  | [] => [a]
  | b :: l => if le b a then b :: insertSorted le a l else a :: b :: l

/-- Stable sort by `le` (left-to-right insertion sort).  JS
`Array.prototype.sort` is required to be stable (ECMAScript 2019), and a
stable sort's output is determined by the comparator, so this models the
source's `sort` calls exactly; unlike `List.mergeSort` it is structurally
recursive, hence kernel-computable. -/
def stableSort (le : α → α → Bool) (l : List α) : List α :=
  l.foldl (fun acc a => insertSorted le a acc) []

/-- `lines.sort((a, b) => a.y - b.y)` followed by
`line.items.sort((a, b) => a.x - b.x)` for each line (both stable). -/
def processLines (lines : List TextLine) : List TextLine :=
  (stableSort (fun a b => decide (a.y ≤ b.y)) lines).map fun l =>
    { y := l.y, items := stableSort (fun a b => decide (a.x ≤ b.x)) l.items }

/-- `line.items.map((item) => item.text).join(" ").trim()`. -/
def lineTextOf (l : TextLine) : String :=
  jsTrim (spaceJoin (l.items.map RunItem.text))

/-- The sorted, per-line-sorted line array of `extractPageText`. -/
def processedLinesOf (pageHeight : ℤ) (items : List PDFTextItem) : List TextLine :=
  processLines (clusterLines (positionedOf pageHeight items))

/-- `lineTexts`: concatenated line texts with the empty ones filtered out. -/
def lineTextsOf (pageHeight : ℤ) (items : List PDFTextItem) : List String :=
  ((processedLinesOf pageHeight items).map lineTextOf).filter
    fun t => decide (0 < jsLength t)

/-- `PARAGRAPH_GAP` of the source. -/
def PARAGRAPH_GAP : ℤ := 10

/-- The paragraph loop `for (let i = 1; i < lines.length; i++)`.
`prevY` is `lines[i-1].y`; the head of the first list is `lines[i]`; `rem`
holds `lineTexts[i], lineTexts[i+1], ...` (exhausted `rem` is JS
`lineTexts[i] === undefined`, which the loop skips with `continue`); `current`
is `currentParagraph` and `acc` the `paragraphs` array.  After the loop the
source pushes `currentParagraph` if it is truthy (non-empty). -/
def paraRun (prevY : ℤ) : List TextLine → List String → String → List String → List String
  | [], _, current, acc => if current = "" then acc else acc ++ [current]
  | l :: rest, [], current, acc => paraRun l.y rest [] current acc
  | l :: rest, t :: rem, current, acc =>
    if t = "" then paraRun l.y rest rem current acc
    else if PARAGRAPH_GAP < l.y - prevY then paraRun l.y rest rem t (acc ++ [current])
    else paraRun l.y rest rem (current ++ " " ++ t) acc

/-- The paragraph-formation stage: `currentParagraph = lineTexts[0]`, the
indexed loop from `i = 1`, and the final flush. -/
def extractParagraphs (lines : List TextLine) (lineTexts : List String) : List String :=
  match lineTexts with
  | [] => []
  | t0 :: restTexts =>
    match lines with
    | [] => if t0 = "" then [] else [t0]
    | l0 :: restLines => paraRun l0.y restLines restTexts t0 []

/-- `extractPageText`, as a pure function of the page height and the text
items of the page.  The two early returns of the source
(`textContent.items.length === 0` and `positioned.length === 0`) are kept;
the `lineTexts.length === 0` early return is the `[]` case of
`extractParagraphs`. -/
def extractPageText (pageHeight : ℤ) (items : List PDFTextItem) : List String :=
  if items.length = 0 then []
  else if (positionedOf pageHeight items).length = 0 then []
  else extractParagraphs (processedLinesOf pageHeight items)
    (lineTextsOf pageHeight items)

/-! ## Document assembly (`convertPdfToWord`) -/

/-- The observable fields of a `TextRun` as constructed by
`convertPdfToWord`: the text, the `italics` flag and the optional `color`. -/
structure TextRun where
  text : String
  italics : Bool
  color : Option String
deriving DecidableEq

/-- A document block pushed onto `children`: either a `Paragraph` holding a
single `TextRun`, or a `Paragraph` holding a `PageBreak`. -/
inductive DocBlock where
  | para (run : TextRun)
  | pageBreak
deriving DecidableEq

/-- The placeholder run for an empty page:
`[Strona ${pageIdx + 1} - brak tekstu]`, italic, gray. -/
def placeholderRun (pageIdx : Nat) : TextRun :=
  { text := "[Strona " ++ toString (pageIdx + 1) ++ " - brak tekstu]",
    italics := true, color := some "999999" }

/-- An ordinary paragraph run: plain text, not italic, no color. -/
def ordinaryRun (text : String) : TextRun :=
  { text := text, italics := false, color := none }

/-- The blocks pushed for one page of `allPageTexts` (the body of the
`for (let pageIdx = 0; ...)` loop, before the page-break check). -/
def pageBlocks (pageIdx : Nat) (pageParagraphs : List String) : List DocBlock :=
  if pageParagraphs.length = 0 then
    [DocBlock.para (placeholderRun pageIdx)]
  else
    pageParagraphs.map fun text => DocBlock.para (ordinaryRun text)

/-- The assembly loop from page index `pageIdx` on: a page's blocks, then a
page break unless this is the last page. -/
def assembleFrom (pageIdx : Nat) : List (List String) → List DocBlock
  | [] => []
  | [ps] => pageBlocks pageIdx ps
  | ps :: rest =>
    pageBlocks pageIdx ps ++ [DocBlock.pageBreak] ++ assembleFrom (pageIdx + 1) rest

/-- All blocks of the assembled document. -/
def assembleBlocks (allPageTexts : List (List String)) : List DocBlock :=
  assembleFrom 0 allPageTexts

/-- Number of page-break markers in a block list. -/
def countPageBreaks (blocks : List DocBlock) : Nat :=
  blocks.countP fun b => match b with
    | DocBlock.pageBreak => true
    | _ => false

/-- A progress report passed to the `onProgress` callback
(`ConversionProgress` in the source). -/
structure ProgressEvent where
  currentPage : Nat
  totalPages : Nat
  stage : String
deriving DecidableEq

/-- An observable event of `convertPdfToWord`: a progress callback
invocation, or the start of a page's text extraction (`pdf.getPage(i)`
followed by `extractPageText`). -/
inductive ConvEvent where
  | progress (e : ProgressEvent)
  | extractPage (pageNumber : Nat)
deriving DecidableEq

/-- The event trace of `convertPdfToWord` for an `n`-page document: for each
`i = 1..n`, a `"extracting"` report `{currentPage: i, totalPages: n}` followed
by the extraction of page `i`; then a single `"generating"` report
`{currentPage: n, totalPages: n}`. -/
def convTrace (n : Nat) : List ConvEvent :=
  (List.flatten ((List.range n).map fun i =>
    [ConvEvent.progress ⟨i + 1, n, "extracting"⟩, ConvEvent.extractPage (i + 1)]))
  ++ [ConvEvent.progress ⟨n, n, "generating"⟩]

/-- The progress reports actually delivered to the callback, in order. -/
def progressReports (events : List ConvEvent) : List ProgressEvent :=
  events.filterMap fun e => match e with
    | ConvEvent.progress p => some p
    | ConvEvent.extractPage _ => none

/-- A page of the input document, as seen by `extractPageText`. -/
structure PageInput where
  pageHeight : ℤ
  items : List PDFTextItem
deriving DecidableEq

/-- The observable behaviour of `convertPdfToWord`: the assembled block
sequence and the event trace. -/
structure ConvOutput where
  blocks : List DocBlock
  events : List ConvEvent
deriving DecidableEq

/-- `convertPdfToWord`: extract each page's paragraphs in page order, then
assemble the document, reporting progress along the way. -/
def convertPdfToWord (pages : List PageInput) : ConvOutput :=
  { blocks := assembleBlocks (pages.map fun pg => extractPageText pg.pageHeight pg.items),
    events := convTrace pages.length }

/-! ## `validatePdfFile` (`src/lib/pdf-converter.ts`) -/

/-- The fields of a JS `File` consulted by `validatePdfFile`. -/
structure JSFile where
  name : String
  type : String
  size : Nat
deriving DecidableEq

/-- JS `String.prototype.includes` (substring test). -/
def jsIncludes (s pat : String) : Bool :=
  decide (pat.data <:+: s.data)

/-- JS `String.prototype.endsWith`. -/
def jsEndsWith (s pat : String) : Bool :=
  decide (pat.data <:+ s.data)

/-- JS `String.prototype.toLowerCase` (ASCII; all names used here are
ASCII, where JS and `Char.toLower` agree). -/
def jsToLowerCase (s : String) : String :=
  ⟨s.data.map Char.toLower⟩

/-- The result record of `validatePdfFile`. -/
structure ValidationResult where
  valid : Bool
  error : Option String
deriving DecidableEq

/-- `validatePdfFile`: reject non-PDF-looking files, then files strictly
larger than 50 MB. -/
def validatePdfFile (file : JSFile) : ValidationResult :=
  let maxSize : Nat := 50 * 1024 * 1024
  if !(jsIncludes file.type "pdf") && !(jsEndsWith (jsToLowerCase file.name) ".pdf") then
    { valid := false, error := some "Plik musi być w formacie PDF" }
  else if maxSize < file.size then
    { valid := false, error := some "Plik jest za duży (max 50 MB)" }
  else
    { valid := true, error := none }

/-! ## Reference definitions following the specification's wording

These two definitions are *not* translated from the source; they spell out
the paragraph-formation rule as the spec and the claims word it, so that the
source-derived pipeline can be compared against them. -/

/-- Spec wording: starting from the first line, if the Y-gap from the
previous line strictly exceeds `PARAGRAPH_GAP` close the accumulator and
start a new one with the current line, else append the line space-joined. -/
def splitByGapAux (prevY : ℤ) (current : String) : List (ℤ × String) → List String
  | [] => [current]
  | (y, t) :: rest =>
    if PARAGRAPH_GAP < y - prevY then current :: splitByGapAux y t rest
    else splitByGapAux y (current ++ " " ++ t) rest

/-- Paragraphs of a `(representative Y, text)` line list under the spec's
gap rule. -/
def splitByGap : List (ℤ × String) → List String
  | [] => []
  | (y0, t0) :: rest => splitByGapAux y0 t0 rest

/-- The paragraph reconstructor as claim C1 words it: lines whose
concatenated text is empty are skipped *entirely*, so the gap is measured
between the current non-empty line and the previous non-empty line. -/
def claimedPageText (pageHeight : ℤ) (items : List PDFTextItem) : List String :=
  splitByGap (((processedLinesOf pageHeight items).map fun l => (l.y, lineTextOf l)).filter
    fun p => decide (0 < jsLength p.2))

/-! ## Concrete example inputs -/

/-- Three runs: a non-empty line at y = 0, an empty-text line (an `hasEOL`
marker run) at y = 5, and a non-empty line at y = 20. -/
def c1Items : List PDFTextItem :=
  [ { str := "A", tx := 0, ty := 100, hasEOL := false },
    { str := "", tx := 0, ty := 95, hasEOL := true },
    { str := "B", tx := 0, ty := 80, hasEOL := false } ]

/-- Three runs on one line (y = 50), with x = 30, 10, 20 and texts
"c", "a", "b". -/
def c3Items : List PDFTextItem :=
  [ { str := "c", tx := 30, ty := 50, hasEOL := false },
    { str := "a", tx := 10, ty := 50, hasEOL := false },
    { str := "b", tx := 20, ty := 50, hasEOL := false } ]

/-- Three non-empty lines at y = 0, 5, 20 (gaps 5 and 15). -/
def c4Items : List PDFTextItem :=
  [ { str := "A", tx := 0, ty := 100, hasEOL := false },
    { str := "B", tx := 0, ty := 95, hasEOL := false },
    { str := "C", tx := 0, ty := 80, hasEOL := false } ]

/-!
# Theorems

Helper lemmas first, then one theorem per claim (with a witness where the
claim's theorem has hypotheses).
-/

theorem spaceJoin_cons_cons (s t : String) (l : List String) :
    spaceJoin (s :: t :: l) = s ++ " " ++ spaceJoin (t :: l) := rfl

theorem spaceJoin_cons_ne (s : String) {l : List String} (h : l ≠ []) :
    spaceJoin (s :: l) = s ++ " " ++ spaceJoin l := by
  cases l with
  | nil => exact absurd rfl h
  | cons t ts => rfl

theorem string_append_ne_empty_left (a b : String) (h : a ≠ "") : a ++ b ≠ "" := by
  intro hab
  apply h
  apply String.ext
  have hd := congrArg String.data hab
  rw [String.data_append] at hd
  have : a.data = [] := (List.append_eq_nil.mp hd).1
  simpa using this

/-- Joining two adjacent entries of a string list with a space does not
change the space-join of the whole list. -/
theorem spaceJoin_merge (acc : List String) (s t : String) (rest : List String) :
    spaceJoin (acc ++ (s ++ " " ++ t) :: rest) = spaceJoin (acc ++ s :: t :: rest) := by
  induction acc with
  | nil =>
    cases rest with
    | nil => rfl
    | cons r rs =>
      show spaceJoin ((s ++ " " ++ t) :: r :: rs) = spaceJoin (s :: t :: r :: rs)
      simp only [spaceJoin_cons_cons, String.append_assoc]
  | cons a as ih =>
    have h₁ : as ++ (s ++ " " ++ t) :: rest ≠ [] := by simp
    have h₂ : as ++ s :: t :: rest ≠ [] := by simp
    show spaceJoin (a :: (as ++ (s ++ " " ++ t) :: rest)) = spaceJoin (a :: (as ++ s :: t :: rest))
    rw [spaceJoin_cons_ne _ h₁, spaceJoin_cons_ne _ h₂, ih]

/-- The paragraph loop preserves the space-join of the texts it consumes,
provided the line array is at least as long as the remaining text list (as
in the pipeline) and all texts involved are non-empty. -/
theorem paraRun_spaceJoin (lines : List TextLine) (prevY : ℤ) (rem : List String)
    (current : String) (acc : List String) (hlen : rem.length ≤ lines.length)
    (hcur : current ≠ "") (hrem : ∀ t ∈ rem, t ≠ "") :
    spaceJoin (paraRun prevY lines rem current acc) = spaceJoin (acc ++ current :: rem) := by
  induction lines generalizing prevY rem current acc with
  | nil =>
    have hrem0 : rem = [] := List.length_eq_zero.mp (Nat.le_zero.mp hlen)
    subst hrem0
    simp [paraRun, hcur]
  | cons l rest ih =>
    cases rem with
    | nil =>
      rw [paraRun]
      exact ih l.y [] current acc (Nat.zero_le _) hcur (by simp)
    | cons t rem' =>
      have ht : t ≠ "" := hrem t (by simp)
      have hrem' : ∀ u ∈ rem', u ≠ "" := fun u hu => hrem u (by simp [hu])
      have hlen' : rem'.length ≤ rest.length := Nat.succ_le_succ_iff.mp (by simpa using hlen)
      rw [paraRun, if_neg ht]
      by_cases hgap : PARAGRAPH_GAP < l.y - prevY
      · rw [if_pos hgap, ih l.y rem' t (acc ++ [current]) hlen' ht hrem']
        simp
      · rw [if_neg hgap,
          ih l.y rem' (current ++ " " ++ t) acc hlen'
            (string_append_ne_empty_left _ _ (string_append_ne_empty_left _ _ hcur)) hrem']
        exact spaceJoin_merge acc current t rem'

/-- Paragraph formation preserves the space-join of the line texts. -/
theorem extractParagraphs_spaceJoin (lines : List TextLine) (lineTexts : List String)
    (hlen : lineTexts.length ≤ lines.length) (hne : ∀ t ∈ lineTexts, t ≠ "") :
    spaceJoin (extractParagraphs lines lineTexts) = spaceJoin lineTexts := by
  cases lineTexts with
  | nil => rfl
  | cons t0 restTexts =>
    have ht0 : t0 ≠ "" := hne t0 (by simp)
    cases lines with
    | nil => simp at hlen
    | cons l0 restLines =>
      show spaceJoin (paraRun l0.y restLines restTexts t0 []) = spaceJoin (t0 :: restTexts)
      rw [paraRun_spaceJoin restLines l0.y restTexts t0 [] (Nat.succ_le_succ_iff.mp (by simpa using hlen))
        ht0 (fun u hu => hne u (by simp [hu]))]
      rfl

theorem lineTextsOf_ne_empty (pageHeight : ℤ) (items : List PDFTextItem) :
    ∀ t ∈ lineTextsOf pageHeight items, t ≠ "" := by
  intro t ht
  have h := (List.mem_filter.mp ht).2
  intro he
  subst he
  simp [jsLength] at h

theorem lineTextsOf_length_le (pageHeight : ℤ) (items : List PDFTextItem) :
    (lineTextsOf pageHeight items).length ≤ (processedLinesOf pageHeight items).length := by
  calc (lineTextsOf pageHeight items).length
      ≤ ((processedLinesOf pageHeight items).map lineTextOf).length :=
        List.length_filter_le _ _
    _ = (processedLinesOf pageHeight items).length := List.length_map _ _

/-- C1, counterexample.  On a page whose middle line has empty text
(an end-of-line marker run at y = 5, between non-empty lines at y = 0 and
y = 20), the code joins everything into one paragraph `["A B"]` — the gap is
measured against the *skipped* empty line at array index `i - 1` — whereas
the claimed rule (gap between consecutive non-empty lines, here 20 > 10)
would give `["A", "B"]`. -/
theorem c1_counterexample :
    extractPageText 100 c1Items = ["A B"] ∧
    claimedPageText 100 c1Items = ["A", "B"] ∧
    extractPageText 100 c1Items ≠ claimedPageText 100 c1Items := by
  decide

/-- C1, amended.  Lines with empty text never contribute text to any
paragraph: the space-join of the paragraphs returned by `extractPageText`
equals the space-join of the non-empty line texts.  (But, contrary to the
original claim, empty-text lines *do* count toward the gap comparison
baseline: the gap at step `i` is `lines[i].y - lines[i-1].y` over the full
clustered line array, as `c1_counterexample` shows.) -/
theorem c1_empty_lines_contribute_no_text (pageHeight : ℤ) (items : List PDFTextItem) :
    spaceJoin (extractPageText pageHeight items) = spaceJoin (lineTextsOf pageHeight items) := by
  rw [extractPageText]
  by_cases h0 : items.length = 0
  · have : items = [] := List.length_eq_zero.mp h0
    subst this
    simp [lineTextsOf, processedLinesOf, positionedOf, clusterLines, processLines, stableSort]
  · rw [if_neg h0]
    by_cases h1 : (positionedOf pageHeight items).length = 0
    · rw [if_pos h1]
      have : positionedOf pageHeight items = [] := List.length_eq_zero.mp h1
      simp [lineTextsOf, processedLinesOf, this, clusterLines, processLines, stableSort]
    · rw [if_neg h1]
      exact extractParagraphs_spaceJoin _ _ (lineTextsOf_length_le pageHeight items)
        (lineTextsOf_ne_empty pageHeight items)

/-- Every paragraph produced by the loop is non-empty, provided the
accumulator, the current paragraph and the remaining texts are. -/
theorem paraRun_ne_empty (lines : List TextLine) (prevY : ℤ) (rem : List String)
    (current : String) (acc : List String) (hcur : current ≠ "")
    (hrem : ∀ t ∈ rem, t ≠ "") (hacc : ∀ q ∈ acc, q ≠ "") :
    ∀ p ∈ paraRun prevY lines rem current acc, p ≠ "" := by
  induction lines generalizing prevY rem current acc with
  | nil =>
    rw [paraRun, if_neg hcur]
    intro p hp
    rcases List.mem_append.mp hp with h | h
    · exact hacc p h
    · rw [List.mem_singleton.mp h]; exact hcur
  | cons l rest ih =>
    cases rem with
    | nil =>
      rw [paraRun]
      exact ih l.y [] current acc hcur (by simp) hacc
    | cons t rem' =>
      have ht : t ≠ "" := hrem t (by simp)
      have hrem' : ∀ u ∈ rem', u ≠ "" := fun u hu => hrem u (by simp [hu])
      rw [paraRun, if_neg ht]
      by_cases hgap : PARAGRAPH_GAP < l.y - prevY
      · rw [if_pos hgap]
        refine ih l.y rem' t (acc ++ [current]) ht hrem' ?_
        intro q hq
        rcases List.mem_append.mp hq with h | h
        · exact hacc q h
        · rw [List.mem_singleton.mp h]; exact hcur
      · rw [if_neg hgap]
        exact ih l.y rem' (current ++ " " ++ t) acc
          (string_append_ne_empty_left _ _ (string_append_ne_empty_left _ _ hcur)) hrem' hacc

theorem extractParagraphs_ne_empty (lines : List TextLine) (lineTexts : List String)
    (hne : ∀ t ∈ lineTexts, t ≠ "") :
    ∀ p ∈ extractParagraphs lines lineTexts, p ≠ "" := by
  cases lineTexts with
  | nil => simp [extractParagraphs]
  | cons t0 restTexts =>
    have ht0 : t0 ≠ "" := hne t0 (by simp)
    cases lines with
    | nil =>
      show ∀ p ∈ (if t0 = "" then [] else [t0]), p ≠ ""
      rw [if_neg ht0]
      intro p hp
      rw [List.mem_singleton.mp hp]; exact ht0
    | cons l0 restLines =>
      exact paraRun_ne_empty restLines l0.y restTexts t0 [] ht0
        (fun u hu => hne u (by simp [hu])) (by simp)

/-- C9: every string in the paragraph list returned by `extractPageText` is
non-empty — empty line texts are filtered out before paragraph formation and
the accumulator only starts from and appends non-empty texts. -/
theorem c9_paragraphs_nonempty (pageHeight : ℤ) (items : List PDFTextItem) :
    ∀ p ∈ extractPageText pageHeight items, p ≠ "" := by
  rw [extractPageText]
  by_cases h0 : items.length = 0
  · simp [h0]
  · rw [if_neg h0]
    by_cases h1 : (positionedOf pageHeight items).length = 0
    · simp [h1]
    · rw [if_neg h1]
      exact extractParagraphs_ne_empty _ _ (lineTextsOf_ne_empty pageHeight items)

/-- Witness for C9 at a concrete page. -/
theorem c9_witness : "A B" ∈ extractPageText 100 c4Items ∧ "A B" ≠ "" :=
  ⟨by decide, c9_paragraphs_nonempty 100 c4Items "A B" (by decide)⟩

theorem positionedOf_filter (pageHeight : ℤ) (items : List PDFTextItem) :
    positionedOf pageHeight (items.filter keepItem) = positionedOf pageHeight items := by
  simp [positionedOf, List.filter_filter]

theorem positionedOf_length (pageHeight : ℤ) (items : List PDFTextItem) :
    (positionedOf pageHeight items).length = (items.filter keepItem).length := by
  simp [positionedOf]

/-- C8: runs whose trimmed text is empty and that carry no end-of-line hint
are discarded before further processing (filtering them away first does not
change the result), and a page with no runs — or none surviving the filter —
yields `[]`, a regular value of the total function `extractPageText`, not an
error. -/
theorem c8_empty_page_not_error :
    (∀ pageHeight : ℤ, extractPageText pageHeight [] = []) ∧
    (∀ (pageHeight : ℤ) (items : List PDFTextItem), items.filter keepItem = [] →
      extractPageText pageHeight items = []) ∧
    (∀ (pageHeight : ℤ) (items : List PDFTextItem),
      extractPageText pageHeight items = extractPageText pageHeight (items.filter keepItem)) ∧
    (∀ it : PDFTextItem, keepItem it = false ↔ (jsLength (jsTrim it.str) = 0 ∧ it.hasEOL = false)) := by
  refine ⟨fun pageHeight => rfl, ?_, ?_, ?_⟩
  · intro pageHeight items h
    rw [extractPageText]
    by_cases h0 : items.length = 0
    · rw [if_pos h0]
    · rw [if_neg h0, if_pos (by rw [positionedOf_length, h]; rfl)]
  · intro pageHeight items
    conv_rhs => rw [extractPageText]
    rw [extractPageText]
    by_cases h0 : items.length = 0
    · have : items = [] := List.length_eq_zero.mp h0
      subst this
      rfl
    · rw [if_neg h0]
      by_cases h1 : (positionedOf pageHeight items).length = 0
      · rw [if_pos h1]
        have h2 : (items.filter keepItem).length = 0 := by
          rw [← positionedOf_length pageHeight, h1]
        rw [if_pos h2]
      · rw [if_neg h1]
        have h2 : ¬(items.filter keepItem).length = 0 := by
          rw [← positionedOf_length pageHeight]
          exact h1
        rw [if_neg h2, if_neg (by rw [positionedOf_filter]; exact h1)]
        simp [processedLinesOf, lineTextsOf, positionedOf_filter]
  · intro it
    simp [keepItem, Nat.pos_iff_ne_zero]

/-- Witness for C8: a single whitespace-only run with no end-of-line hint is
filtered out, and the page yields `[]`. -/
theorem c8_witness :
    (([{ str := " ", tx := 0, ty := 50, hasEOL := false }] : List PDFTextItem).filter keepItem
      = []) ∧
    extractPageText 100 [{ str := " ", tx := 0, ty := 50, hasEOL := false }] = [] :=
  ⟨by decide, c8_empty_page_not_error.2.1 100 _ (by decide)⟩

theorem jsLength_pos_of_ne_empty {t : String} (h : t ≠ "") : 0 < jsLength t := by
  rcases Nat.eq_zero_or_pos (jsLength t) with h0 | h0
  · exact absurd (String.ext (by simpa [jsLength] using List.length_eq_zero.mp h0)) h
  · exact h0

/-- When every line's text is non-empty, the paragraph loop is exactly the
spec's gap-splitting rule. -/
theorem paraRun_splitByGap (lines : List TextLine) (prevY : ℤ) (current : String)
    (acc : List String) (hne : ∀ l ∈ lines, lineTextOf l ≠ "") (hcur : current ≠ "") :
    paraRun prevY lines (lines.map lineTextOf) current acc
      = acc ++ splitByGapAux prevY current (lines.map fun l => (l.y, lineTextOf l)) := by
  induction lines generalizing prevY current acc with
  | nil => simp [paraRun, splitByGapAux, hcur]
  | cons l rest ih =>
    have ht : lineTextOf l ≠ "" := hne l (by simp)
    have hrest : ∀ u ∈ rest, lineTextOf u ≠ "" := fun u hu => hne u (by simp [hu])
    rw [List.map_cons, List.map_cons, paraRun, if_neg ht]
    by_cases hgap : PARAGRAPH_GAP < l.y - prevY
    · rw [if_pos hgap, ih l.y (lineTextOf l) (acc ++ [current]) hrest ht,
        splitByGapAux, if_pos hgap]
      simp
    · rw [if_neg hgap,
        ih l.y (current ++ " " ++ lineTextOf l) acc hrest
          (string_append_ne_empty_left _ _ (string_append_ne_empty_left _ _ hcur)),
        splitByGapAux, if_neg hgap]

/-- C4: paragraph formation splits exactly at Y-gaps strictly greater than
`PARAGRAPH_GAP` (= 10): on lines with non-empty texts the pipeline's
paragraph stage coincides with the spec's gap-splitting rule, and a page
with non-empty lines at Y = 0, 5, 20 yields the two paragraphs
`["A B", "C"]`. -/
theorem c4_paragraph_gap :
    (∀ lines : List TextLine, (∀ l ∈ lines, lineTextOf l ≠ "") →
      extractParagraphs lines ((lines.map lineTextOf).filter fun t => decide (0 < jsLength t))
        = splitByGap (lines.map fun l => (l.y, lineTextOf l))) ∧
    extractPageText 100 c4Items = ["A B", "C"] := by
  constructor
  · intro lines hne
    have hfilter : (lines.map lineTextOf).filter (fun t => decide (0 < jsLength t))
        = lines.map lineTextOf := by
      apply List.filter_eq_self.mpr
      intro t ht
      rcases List.mem_map.mp ht with ⟨l, hl, rfl⟩
      exact decide_eq_true (jsLength_pos_of_ne_empty (hne l hl))
    rw [hfilter]
    cases lines with
    | nil => rfl
    | cons l0 rest =>
      have ht0 : lineTextOf l0 ≠ "" := hne l0 (by simp)
      show paraRun l0.y rest (rest.map lineTextOf) (lineTextOf l0) [] = _
      rw [paraRun_splitByGap rest l0.y (lineTextOf l0) []
        (fun u hu => hne u (by simp [hu])) ht0]
      rfl
  · decide

/-- Witness for C4's general part at three concrete non-empty lines. -/
theorem c4_witness :
    (∀ l ∈ ([⟨0, [⟨0, "A"⟩]⟩, ⟨5, [⟨0, "B"⟩]⟩, ⟨20, [⟨0, "C"⟩]⟩] : List TextLine),
      lineTextOf l ≠ "") ∧
    extractParagraphs [⟨0, [⟨0, "A"⟩]⟩, ⟨5, [⟨0, "B"⟩]⟩, ⟨20, [⟨0, "C"⟩]⟩]
        ((([⟨0, [⟨0, "A"⟩]⟩, ⟨5, [⟨0, "B"⟩]⟩, ⟨20, [⟨0, "C"⟩]⟩] : List TextLine).map
          lineTextOf).filter fun t => decide (0 < jsLength t))
      = splitByGap (([⟨0, [⟨0, "A"⟩]⟩, ⟨5, [⟨0, "B"⟩]⟩, ⟨20, [⟨0, "C"⟩]⟩] : List TextLine).map
          fun l => (l.y, lineTextOf l)) :=
  ⟨by decide, c4_paragraph_gap.1 _ (by decide)⟩

theorem mem_insertSorted (le : α → α → Bool) (a c : α) (l : List α) :
    c ∈ insertSorted le a l ↔ c = a ∨ c ∈ l := by
  induction l with
  | nil => simp [insertSorted]
  | cons b t ih =>
    rw [insertSorted]
    by_cases h : le b a = true
    · rw [if_pos h]
      simp only [List.mem_cons, ih]
      tauto
    · rw [if_neg h]
      simp only [List.mem_cons]

theorem insertSorted_pairwise {le : α → α → Bool}
    (htrans : ∀ a b c, le a b = true → le b c = true → le a c = true)
    (htotal : ∀ a b, le a b = true ∨ le b a = true)
    (a : α) {l : List α} (hl : l.Pairwise fun x y => le x y = true) :
    (insertSorted le a l).Pairwise fun x y => le x y = true := by
  induction l with
  | nil => simp [insertSorted]
  | cons b t ih =>
    rw [List.pairwise_cons] at hl
    rw [insertSorted]
    by_cases h : le b a = true
    · rw [if_pos h, List.pairwise_cons]
      refine ⟨?_, ih hl.2⟩
      intro c hc
      rcases (mem_insertSorted le a c t).mp hc with rfl | hct
      · exact h
      · exact hl.1 c hct
    · rw [if_neg h, List.pairwise_cons]
      have hab : le a b = true := (htotal a b).resolve_right fun hba => h hba
      refine ⟨?_, List.pairwise_cons.mpr hl⟩
      intro c hc
      rcases List.mem_cons.mp hc with rfl | hct
      · exact hab
      · exact htrans a b c hab (hl.1 c hct)

theorem stableSort_pairwise {le : α → α → Bool}
    (htrans : ∀ a b c, le a b = true → le b c = true → le a c = true)
    (htotal : ∀ a b, le a b = true ∨ le b a = true) (l : List α) :
    (stableSort le l).Pairwise fun x y => le x y = true := by
  suffices h : ∀ acc : List α, acc.Pairwise (fun x y => le x y = true) →
      (l.foldl (fun acc a => insertSorted le a acc) acc).Pairwise
        fun x y => le x y = true by
    exact h [] (by simp)
  induction l with
  | nil => exact fun acc hacc => hacc
  | cons a t ih =>
    intro acc hacc
    exact ih _ (insertSorted_pairwise htrans htotal a hacc)

/-- C3: after clustering, the lines are sorted ascending by representative Y
and each line's runs are sorted ascending by X before the space-join; on a
one-line page with runs at X = 30, 10, 20 and texts "c", "a", "b" the
reconstructed text is "a b c". -/
theorem c3_sorting :
    (∀ (pageHeight : ℤ) (items : List PDFTextItem),
      (processedLinesOf pageHeight items).Pairwise (fun a b => a.y ≤ b.y) ∧
      ∀ l ∈ processedLinesOf pageHeight items,
        l.items.Pairwise fun a b => a.x ≤ b.x) ∧
    extractPageText 100 c3Items = ["a b c"] := by
  constructor
  · intro pageHeight items
    constructor
    · have hs := @stableSort_pairwise TextLine (fun a b => decide (a.y ≤ b.y))
        (fun a b c hab hbc =>
          decide_eq_true (le_trans (of_decide_eq_true hab) (of_decide_eq_true hbc)))
        (fun a b => by
          rcases le_total a.y b.y with h | h
          · exact Or.inl (decide_eq_true h)
          · exact Or.inr (decide_eq_true h))
        (clusterLines (positionedOf pageHeight items))
      have hmap : (processedLinesOf pageHeight items).Pairwise
          fun a b => decide (a.y ≤ b.y) = true := by
        rw [processedLinesOf, processLines]
        exact List.pairwise_map.mpr hs
      exact hmap.imp fun h => of_decide_eq_true h
    · intro l hl
      rw [processedLinesOf, processLines] at hl
      rcases List.mem_map.mp hl with ⟨l', _, rfl⟩
      have hs := @stableSort_pairwise RunItem (fun a b => decide (a.x ≤ b.x))
        (fun a b c hab hbc =>
          decide_eq_true (le_trans (of_decide_eq_true hab) (of_decide_eq_true hbc)))
        (fun a b => by
          rcases le_total a.x b.x with h | h
          · exact Or.inl (decide_eq_true h)
          · exact Or.inr (decide_eq_true h))
        l'.items
      exact hs.imp fun h => of_decide_eq_true h
  · decide

/-- Witness for C3 at the concrete one-line page. -/
theorem c3_witness :
    (⟨50, [⟨10, "a"⟩, ⟨20, "b"⟩, ⟨30, "c"⟩]⟩ : TextLine) ∈ processedLinesOf 100 c3Items ∧
    List.Pairwise (fun a b : RunItem => a.x ≤ b.x) [⟨10, "a"⟩, ⟨20, "b"⟩, ⟨30, "c"⟩] :=
  ⟨by decide, (c3_sorting.1 100 c3Items).2 ⟨50, [⟨10, "a"⟩, ⟨20, "b"⟩, ⟨30, "c"⟩]⟩ (by decide)⟩

/-- C2: line clustering is greedy first-fit with a fixed representative.
Processing runs in input order (first conjunct), a run either joins the
first cluster whose representative Y differs from its Y by strictly less
than `LINE_THRESHOLD` (= 3) — leaving that cluster's representative Y
unchanged (third conjunct) — or, when no cluster matches, opens a new
cluster whose representative is the run's own Y (second conjunct). -/
theorem c2_cluster_first_fit :
    (∀ (ps : List Positioned) (p : Positioned),
      clusterLines (ps ++ [p]) = addRun (clusterLines ps) p) ∧
    (∀ (lines : List TextLine) (p : Positioned),
      (∀ l ∈ lines, ¬|l.y - p.y| < LINE_THRESHOLD) →
      addRun lines p = lines ++ [{ y := p.y, items := [{ x := p.x, text := p.text }] }]) ∧
    (∀ (lines : List TextLine) (p : Positioned) (i : Nat) (h : i < lines.length),
      (∀ (j : Nat) (hj : j < lines.length), j < i →
        ¬|(lines.get ⟨j, hj⟩).y - p.y| < LINE_THRESHOLD) →
      |(lines.get ⟨i, h⟩).y - p.y| < LINE_THRESHOLD →
      addRun lines p = lines.take i
        ++ [{ y := (lines.get ⟨i, h⟩).y,
              items := (lines.get ⟨i, h⟩).items ++ [{ x := p.x, text := p.text }] }]
        ++ lines.drop (i + 1)) := by
  refine ⟨?_, ?_, ?_⟩
  · intro ps p
    simp [clusterLines, List.foldl_append]
  · intro lines p hno
    induction lines with
    | nil => rfl
    | cons l rest ih =>
      rw [addRun, if_neg (hno l (by simp)), ih fun u hu => hno u (by simp [hu])]
      rfl
  · intro lines p i
    induction lines generalizing i with
    | nil => intro h; simp at h
    | cons l rest ih =>
      intro h hfirst hmatch
      cases i with
      | zero =>
        rw [addRun, if_pos (show |l.y - p.y| < LINE_THRESHOLD from hmatch)]
        rfl
      | succ i =>
        have hl : ¬|l.y - p.y| < LINE_THRESHOLD :=
          hfirst 0 (Nat.succ_pos _) (Nat.succ_pos _)
        rw [addRun, if_neg hl,
          ih i (Nat.lt_of_succ_lt_succ h)
            (fun j hj hji => hfirst (j + 1) (Nat.succ_lt_succ hj) (Nat.succ_lt_succ hji))
            hmatch]
        rfl

/-- Witness for C2: the run at y = 11 skips the cluster at y = 0 and joins
the (first matching) cluster at y = 10, which keeps its representative. -/
theorem c2_witness :
    (∀ (j : Nat) (hj : j < ([⟨0, [⟨0, "q"⟩]⟩, ⟨10, [⟨1, "r"⟩]⟩] : List TextLine).length),
      j < 1 → ¬|(([⟨0, [⟨0, "q"⟩]⟩, ⟨10, [⟨1, "r"⟩]⟩] : List TextLine).get ⟨j, hj⟩).y -
        (⟨"s", 2, 11, false⟩ : Positioned).y| < LINE_THRESHOLD) ∧
    addRun [⟨0, [⟨0, "q"⟩]⟩, ⟨10, [⟨1, "r"⟩]⟩] ⟨"s", 2, 11, false⟩
      = [⟨0, [⟨0, "q"⟩]⟩, ⟨10, [⟨1, "r"⟩, ⟨2, "s"⟩]⟩] :=
  ⟨by decide,
    c2_cluster_first_fit.2.2 [⟨0, [⟨0, "q"⟩]⟩, ⟨10, [⟨1, "r"⟩]⟩] ⟨"s", 2, 11, false⟩ 1
      (by decide) (by decide) (by decide)⟩

theorem countPageBreaks_pageBlocks (i : Nat) (ps : List String) :
    countPageBreaks (pageBlocks i ps) = 0 := by
  rw [pageBlocks]
  by_cases h : ps.length = 0
  · rw [if_pos h]; rfl
  · rw [if_neg h, countPageBreaks, List.countP_map]
    apply List.countP_eq_zero.mpr
    intro t _
    simp

theorem countPageBreaks_append (a b : List DocBlock) :
    countPageBreaks (a ++ b) = countPageBreaks a + countPageBreaks b := by
  simp [countPageBreaks, List.countP_append]

theorem assembleFrom_countPageBreaks (start : Nat) (PS : List (List String)) (h : PS ≠ []) :
    countPageBreaks (assembleFrom start PS) = PS.length - 1 := by
  induction PS generalizing start with
  | nil => exact absurd rfl h
  | cons ps rest ih =>
    cases rest with
    | nil => simp [assembleFrom, countPageBreaks_pageBlocks]
    | cons r rs =>
      show countPageBreaks
        (pageBlocks start ps ++ [DocBlock.pageBreak] ++ assembleFrom (start + 1) (r :: rs)) = _
      rw [countPageBreaks_append, countPageBreaks_append, countPageBreaks_pageBlocks,
        ih (start + 1) (List.cons_ne_nil r rs)]
      simp [countPageBreaks]
      omega

/-- C5: the assembled document contains exactly `totalPages - 1` page-break
markers — one after each page's blocks except the last page's. -/
theorem c5_page_break_count (pages : List PageInput) (h : 1 ≤ pages.length) :
    countPageBreaks (convertPdfToWord pages).blocks = pages.length - 1 := by
  have hne : (pages.map fun pg => extractPageText pg.pageHeight pg.items) ≠ [] := by
    intro he
    rw [List.map_eq_nil_iff] at he
    subst he
    simp at h
  show countPageBreaks (assembleFrom 0 _) = _
  rw [assembleFrom_countPageBreaks 0 _ hne]
  simp

/-- Witness for C5 on a concrete two-page document. -/
theorem c5_witness :
    1 ≤ ([⟨100, c4Items⟩, ⟨100, []⟩] : List PageInput).length ∧
    countPageBreaks (convertPdfToWord [⟨100, c4Items⟩, ⟨100, []⟩]).blocks = 1 :=
  ⟨by decide, c5_page_break_count [⟨100, c4Items⟩, ⟨100, []⟩] (by decide)⟩

theorem assembleFrom_decomp (PS : List (List String)) :
    ∀ (start i : Nat) (h : i < PS.length),
    ∃ pre post, assembleFrom start PS
      = pre ++ pageBlocks (start + i) (PS.get ⟨i, h⟩) ++ post := by
  induction PS with
  | nil =>
    intro start i h
    simp at h
  | cons ps rest ih =>
    intro start i h
    cases i with
    | zero =>
      cases rest with
      | nil => exact ⟨[], [], by simp [assembleFrom]⟩
      | cons r rs =>
        exact ⟨[], [DocBlock.pageBreak] ++ assembleFrom (start + 1) (r :: rs),
          by simp [assembleFrom]⟩
    | succ i =>
      cases rest with
      | nil => simp at h
      | cons r rs =>
        obtain ⟨pre, post, heq⟩ := ih (start + 1) i (Nat.lt_of_succ_lt_succ h)
        refine ⟨pageBlocks start ps ++ [DocBlock.pageBreak] ++ pre, post, ?_⟩
        show pageBlocks start ps ++ [DocBlock.pageBreak] ++ assembleFrom (start + 1) (r :: rs) = _
        rw [heq]
        have harith : start + 1 + i = start + (i + 1) := by omega
        rw [harith]
        simp [List.append_assoc]

/-- C6: each page contributes a contiguous segment of the assembled
document; an empty paragraph list yields exactly the one italic
`[Strona N - brak tekstu]` placeholder (N = pageIdx + 1) and no ordinary
block, while a non-empty paragraph list yields one ordinary block per
paragraph, in order, and no placeholder. -/
theorem c6_page_blocks (pages : List PageInput) (pageIdx : Nat) (h : pageIdx < pages.length) :
    (∃ pre post, (convertPdfToWord pages).blocks
      = pre ++ pageBlocks pageIdx (extractPageText (pages.get ⟨pageIdx, h⟩).pageHeight
          (pages.get ⟨pageIdx, h⟩).items) ++ post) ∧
    (∀ ps : List String, ps = [] →
      pageBlocks pageIdx ps = [DocBlock.para (placeholderRun pageIdx)] ∧
      ∀ t : String, DocBlock.para (ordinaryRun t) ∉ pageBlocks pageIdx ps) ∧
    (∀ ps : List String, ps ≠ [] →
      pageBlocks pageIdx ps = ps.map (fun t => DocBlock.para (ordinaryRun t)) ∧
      DocBlock.para (placeholderRun pageIdx) ∉ pageBlocks pageIdx ps) := by
  refine ⟨?_, ?_, ?_⟩
  · have h' : pageIdx < (pages.map fun pg => extractPageText pg.pageHeight pg.items).length := by
      simpa using h
    obtain ⟨pre, post, heq⟩ := assembleFrom_decomp _ 0 pageIdx h'
    refine ⟨pre, post, ?_⟩
    show assembleFrom 0 _ = _
    rw [heq]
    simp [List.get_eq_getElem, List.getElem_map]
  · intro ps hps
    subst hps
    refine ⟨rfl, ?_⟩
    intro t ht
    have := List.mem_singleton.mp ht
    simp [ordinaryRun, placeholderRun] at this
  · intro ps hps
    have hlen : ¬ps.length = 0 := by simpa using hps
    refine ⟨by rw [pageBlocks, if_neg hlen], ?_⟩
    intro hmem
    rw [pageBlocks, if_neg hlen] at hmem
    rcases List.mem_map.mp hmem with ⟨t, _, heq⟩
    simp [ordinaryRun, placeholderRun] at heq

/-- Witness for C6: page 2 (index 1) of a concrete document is empty and
yields exactly the placeholder. -/
theorem c6_witness :
    pageBlocks 1 ([] : List String) = [DocBlock.para (placeholderRun 1)] ∧
    ∀ t : String, DocBlock.para (ordinaryRun t) ∉ pageBlocks 1 ([] : List String) :=
  (c6_page_blocks [⟨100, c4Items⟩, ⟨100, []⟩] 1 (by decide)).2.1 [] rfl

theorem progressReports_flatten_pairs (n : Nat) (l : List Nat) :
    progressReports (List.flatten (l.map fun i =>
        [ConvEvent.progress ⟨i + 1, n, "extracting"⟩, ConvEvent.extractPage (i + 1)]))
      = l.map fun i => (⟨i + 1, n, "extracting"⟩ : ProgressEvent) := by
  induction l with
  | nil => rfl
  | cons a t ih =>
    rw [List.map_cons, List.flatten_cons, List.map_cons, ← ih]
    rfl

/-- C7: the progress callback receives exactly one `"extracting"` report per
page with `currentPage` running 1, 2, …, N in order (each carrying
`totalPages = N`), followed by exactly one `"generating"` report and nothing
else; and each page's `"extracting"` report is emitted immediately before
that page's extraction begins. -/
theorem c7_progress (pages : List PageInput) :
    progressReports (convertPdfToWord pages).events
      = ((List.range pages.length).map
          fun i => (⟨i + 1, pages.length, "extracting"⟩ : ProgressEvent))
        ++ [⟨pages.length, pages.length, "generating"⟩] ∧
    ∀ i, i < pages.length →
      [ConvEvent.progress ⟨i + 1, pages.length, "extracting"⟩,
        ConvEvent.extractPage (i + 1)] <:+: (convertPdfToWord pages).events := by
  constructor
  · show progressReports (convTrace pages.length) = _
    rw [convTrace, progressReports, List.filterMap_append]
    rw [show List.filterMap _ _ = progressReports (List.flatten ((List.range pages.length).map
      fun i => [ConvEvent.progress ⟨i + 1, pages.length, "extracting"⟩,
        ConvEvent.extractPage (i + 1)])) from rfl]
    rw [progressReports_flatten_pairs]
    rfl
  · intro i hi
    have hm : [ConvEvent.progress ⟨i + 1, pages.length, "extracting"⟩,
        ConvEvent.extractPage (i + 1)] ∈ (List.range pages.length).map
          (fun i => [ConvEvent.progress ⟨i + 1, pages.length, "extracting"⟩,
            ConvEvent.extractPage (i + 1)]) :=
      List.mem_map_of_mem _ (List.mem_range.mpr hi)
    obtain ⟨S, T, hST⟩ := List.append_of_mem hm
    refine ⟨S.flatten, T.flatten
      ++ [ConvEvent.progress ⟨pages.length, pages.length, "generating"⟩], ?_⟩
    show _ = convTrace pages.length
    rw [convTrace, hST]
    simp [List.flatten_append]

/-- Witness for C7 on a concrete two-page document, page 1. -/
theorem c7_witness :
    0 < ([⟨100, c4Items⟩, ⟨100, []⟩] : List PageInput).length ∧
    [ConvEvent.progress ⟨1, 2, "extracting"⟩, ConvEvent.extractPage 1]
      <:+: (convertPdfToWord [⟨100, c4Items⟩, ⟨100, []⟩]).events :=
  ⟨by decide, (c7_progress [⟨100, c4Items⟩, ⟨100, []⟩]).2 0 (by decide)⟩

/-- C10: the 50 MB size ceiling is a strict inequality.  For a file whose
lowercased name ends in ".pdf" (whatever its MIME type), a size of exactly
`50 * 1024 * 1024` bytes — indeed any size up to that bound — validates
successfully, and only strictly larger files are rejected, with the size
error message. -/
theorem c10_size_ceiling (f : JSFile)
    (hname : jsEndsWith (jsToLowerCase f.name) ".pdf" = true) :
    (f.size = 50 * 1024 * 1024 → validatePdfFile f = { valid := true, error := none }) ∧
    (f.size ≤ 50 * 1024 * 1024 → validatePdfFile f = { valid := true, error := none }) ∧
    (50 * 1024 * 1024 < f.size →
      validatePdfFile f = { valid := false, error := some "Plik jest za duży (max 50 MB)" }) := by
  have hfmt : (!jsIncludes f.type "pdf" && !jsEndsWith (jsToLowerCase f.name) ".pdf") = false := by
    rw [hname]
    simp
  refine ⟨?_, ?_, ?_⟩
  · intro hsize
    rw [validatePdfFile]
    simp only [hfmt, Bool.false_eq_true, if_false]
    rw [if_neg (by omega)]
  · intro hsize
    rw [validatePdfFile]
    simp only [hfmt, Bool.false_eq_true, if_false]
    rw [if_neg (by omega)]
  · intro hsize
    rw [validatePdfFile]
    simp only [hfmt, Bool.false_eq_true, if_false]
    rw [if_pos (by omega)]

/-- Witness for C10: a 52428800-byte file with an uppercase `.PDF` name and
a non-PDF MIME type is accepted. -/
theorem c10_witness :
    jsEndsWith (jsToLowerCase "Report.PDF") ".pdf" = true ∧
    validatePdfFile ⟨"Report.PDF", "application/octet-stream", 52428800⟩
      = { valid := true, error := none } :=
  ⟨by decide,
    (c10_size_ceiling ⟨"Report.PDF", "application/octet-stream", 52428800⟩ (by decide)).1 rfl⟩

end Utllo
